import Mathlib

/-!
Verification development for the aiko-monitor-go event pipeline.

Go code is shallowly embedded: Go strings become Lean `String` (byte strings
that are not valid UTF-8 are modelled as `List Nat` where it matters), Go maps
become association lists in iteration order, and Go `interface{}` value trees
become the inductive `GoValue`.  The PII regular-expression replacement
(`redactString`, built on Go's stdlib `regexp`) is kept abstract as a function
parameter, since no claim depends on its internals.
-/

namespace Aiko

/-- Model of ASCII lower-casing of one character (the header keys and
content types handled by the code are ASCII; Go `strings.ToLower`). -/
def lowerChar (c : Char) : Char :=
  if 65 ≤ c.toNat ∧ c.toNat ≤ 90 then Char.ofNat (c.toNat + 32) else c

/-- Model of Go `strings.ToLower`. -/
def goToLower (s : String) : String :=
  String.mk (s.data.map lowerChar)

/-- Model of Go `strings.HasPrefix` on character lists. -/
def listStarts : List Char → List Char → Bool
  | _, [] => true
  | [], _ :: _ => false
  | c :: cs, d :: ds => c == d && listStarts cs ds

/-- Model of Go `strings.Contains` on character lists. -/
def listHas : List Char → List Char → Bool
  | [], pat => pat.isEmpty
  | c :: cs, pat => listStarts (c :: cs) pat || listHas cs pat

/-- Go `strings.HasPrefix`. -/
def strStarts (s pat : String) : Bool := listStarts s.data pat.data

/-- Go `strings.Contains`. -/
def strHas (s pat : String) : Bool := listHas s.data pat.data

/-- The sensitive-key set of `urlutil.go` (`sensitiveKeys`). -/
def sensitiveKeys : List String :=
  ["password", "secret", "token", "api_key", "authorization", "cookie",
   "email", "phonenumber", "ssn", "creditcard", "set-cookie", "ip",
   "x-forwarded-for", "x-forwarded-ip", "x-real-ip", "cf-connecting-ip",
   "true-client-ip", "forwarded", "remote-addr", "client-ip"]

/-- Membership in `sensitiveKeys` (`_, ok := sensitiveKeys[k]`). -/
def isSensitiveKey (k : String) : Bool := sensitiveKeys.contains k

/-- The fixed mask string (`redactionMask` in `urlutil.go`). -/
def redactionMask : String := "[REDACTED]"

/-- Go `interface{}` value trees as they occur in event bodies: JSON-like
objects, string maps, arrays, string arrays, strings, raw byte blobs and
the remaining scalars (which `redactValue` passes through unchanged). -/
inductive GoValue where
  | vObj (fields : List (String × GoValue))
  | vStrMap (fields : List (String × String))
  | vArr (items : List GoValue)
  | vStrArr (items : List String)
  | vStr (s : String)
  | vBytes (bs : List Nat)
  | vNum (q : ℚ)
  | vBool (b : Bool)
  | vNull

/-- The base64 standard alphabet (Go `encoding/base64.StdEncoding`). -/
def base64Alphabet : List Char :=
  "ABCDEFGHIJKLMNOPQRSTUVWXYZabcdefghijklmnopqrstuvwxyz0123456789+/".data

/-- One base64 digit. -/
def b64Char (n : Nat) : Char := base64Alphabet.getD n 'A'

/-- Model of Go `base64.StdEncoding.EncodeToString` over byte lists. -/
def base64Encode : List Nat → List Char
  | [] => []
  | [a] => [b64Char (a / 4), b64Char (a % 4 * 16), '=', '=']
  | [a, b] => [b64Char (a / 4), b64Char (a % 4 * 16 + b / 16), b64Char (b % 16 * 4), '=']
  | a :: b :: c :: rest =>
      b64Char (a / 4) :: b64Char (a % 4 * 16 + b / 16) ::
      b64Char (b % 16 * 4 + c / 64) :: b64Char (c % 64) :: base64Encode rest

/-- Base64 standard encoding as a string. -/
def base64Std (bs : List Nat) : String := String.mk (base64Encode bs)

section Redaction

/- Abstract stand-in for `redactString` of `urlutil.go`: the claims treat the
PII pattern replacement as a black box, so it is a parameter throughout. -/
variable (redactString : String → String)

mutual

/-- Embedding of `redactValue` from `urlutil.go`: walks the value tree;
object/map entries with a case-insensitively sensitive key are replaced
wholesale with the mask, all other entries recurse; arrays recurse
elementwise; strings get `redactString`; byte blobs become a tagged
base64 map; all other scalars pass through unchanged. -/
def redactValue : GoValue → GoValue
  | .vObj fields => .vObj (redactFields fields)
  | .vStrMap fields =>
      .vObj (fields.map fun kv =>
        (kv.1, if isSensitiveKey (goToLower kv.1) then GoValue.vStr redactionMask
               else GoValue.vStr (redactString kv.2)))
  | .vArr items => .vArr (redactItems items)
  | .vStrArr items => .vArr (items.map fun s => GoValue.vStr (redactString s))
  | .vStr s => .vStr (redactString s)
  | .vBytes bs => .vStrMap [("base64", base64Std bs)]
  | .vNum q => .vNum q
  | .vBool b => .vBool b
  | .vNull => .vNull

/-- The `map[string]interface{}` case of `redactValue`. -/
def redactFields : List (String × GoValue) → List (String × GoValue)
  | [] => []
  | (k, v) :: rest =>
      (k, if isSensitiveKey (goToLower k) then GoValue.vStr redactionMask
          else redactValue v) :: redactFields rest

/-- The `[]interface{}` case of `redactValue`. -/
def redactItems : List GoValue → List GoValue
  | [] => []
  | v :: rest => redactValue v :: redactItems rest

end

end Redaction

/-- First-match lookup in an association list of `GoValue` fields. -/
def lookupField : List (String × GoValue) → String → Option GoValue
  | [], _ => none
  | kv :: rest, k => if kv.1 = k then some kv.2 else lookupField rest k

/-- First-match lookup in a string association list
(model of reading a Go `map[string]string`). -/
def mapLookup : List (String × String) → String → Option String
  | [], _ => none
  | kv :: rest, k => if kv.1 = k then some kv.2 else mapLookup rest k

/-- Model of a Go map write `m[k] = v` on the association-list model:
overwrite in place if the key exists, else append. -/
def mapInsert : List (String × String) → String → String → List (String × String)
  | [], k, v => [(k, v)]
  | kv :: rest, k, v => if kv.1 = k then (k, v) :: rest else kv :: mapInsert rest k v

/-- Embedding of `redactHeaders` from `urlutil.go`: every key is lower-cased;
a sensitive key gets the mask wholesale, every other value gets
`redactString` only.  The input list is the Go map in iteration order. -/
def redactHeaders (redactString : String → String)
    (hs : List (String × String)) : List (String × String) :=
  hs.foldl
    (fun out kv =>
      let lower := goToLower kv.1
      if isSensitiveKey lower then mapInsert out lower redactionMask
      else mapInsert out lower (redactString kv.2))
    []

/-- One navigation step into a value tree: an object field or an array index. -/
inductive Step where
  | field (k : String)
  | idx (n : Nat)

/-- Reading one step of a value tree (object field lookup or array index). -/
def getStep : GoValue → Step → Option GoValue
  | .vObj fields, .field k => lookupField fields k
  | .vStrMap fields, .field k => (mapLookup fields k).map GoValue.vStr
  | .vArr items, .idx n => items.get? n
  | .vStrArr items, .idx n => (items.get? n).map GoValue.vStr
  | _, _ => none

/-- Reading a value at a nesting path. -/
def getPath : GoValue → List Step → Option GoValue
  | v, [] => some v
  | v, s :: rest =>
    match getStep v s with
    | some w => getPath w rest
    | none => none

/-- A step that does not itself hit a sensitive key. -/
def stepOk : Step → Bool
  | .field k => !isSensitiveKey (goToLower k)
  | .idx _ => true

/-- A path whose field steps all avoid the sensitive-key set. -/
def pathOk (p : List Step) : Bool := p.all stepOk

/-- Unfolding of the object case of redaction as a `List.map`. -/
theorem redactFields_eq_map (rs : String → String)
    (fields : List (String × GoValue)) :
    redactFields rs fields = fields.map fun kv =>
      (kv.1, if isSensitiveKey (goToLower kv.1) then GoValue.vStr redactionMask
             else redactValue rs kv.2) := by
  induction fields with
  | nil => rfl
  | cons kv rest ih => cases kv; simp [redactFields, ih]

/-- First-match lookup commutes with a key-preserving map over `GoValue` fields. -/
theorem lookupField_map (f : String → GoValue → GoValue)
    (fields : List (String × GoValue)) (k : String) :
    lookupField (fields.map fun kv => (kv.1, f kv.1 kv.2)) k
      = (lookupField fields k).map (f k) := by
  induction fields with
  | nil => rfl
  | cons kv rest ih =>
    by_cases h : kv.1 = k <;> simp [lookupField, h, ih]

/-- First-match lookup commutes with a key-preserving map from string fields. -/
theorem lookupField_mapStr (f : String → String → GoValue)
    (fields : List (String × String)) (k : String) :
    lookupField (fields.map fun kv => (kv.1, f kv.1 kv.2)) k
      = (mapLookup fields k).map (f k) := by
  induction fields with
  | nil => rfl
  | cons kv rest ih =>
    by_cases h : kv.1 = k <;> simp [lookupField, mapLookup, h, ih]

/-- Unfolding of the array case of redaction as a `List.map`. -/
theorem redactItems_eq_map (rs : String → String) (items : List GoValue) :
    redactItems rs items = items.map (redactValue rs) := by
  induction items with
  | nil => rfl
  | cons v rest ih => simp [redactItems, ih]

/-- Helper: redaction at a single object-field step: a sensitive key is masked
wholesale, a non-sensitive key holds the redaction of the original value. -/
theorem getStep_field_redact (rs : String → String) (v : GoValue) (k : String)
    (w : GoValue) (h : getStep v (.field k) = some w) :
    (isSensitiveKey (goToLower k) = true →
      getStep (redactValue rs v) (.field k) = some (.vStr redactionMask)) ∧
    (isSensitiveKey (goToLower k) = false →
      getStep (redactValue rs v) (.field k) = some (redactValue rs w)) := by
  cases v with
  | vObj fields =>
    simp only [getStep] at h
    constructor <;> intro hs <;>
      simp [getStep, redactValue, redactFields_eq_map,
        lookupField_map (fun k v =>
          if isSensitiveKey (goToLower k) then GoValue.vStr redactionMask
          else redactValue rs v), h, hs]
  | vStrMap fields =>
    simp only [getStep, Option.map_eq_some'] at h
    obtain ⟨val, hval, hw⟩ := h
    constructor <;> intro hs <;>
      simp [getStep, redactValue, ← hw,
        lookupField_mapStr (fun k v =>
          if isSensitiveKey (goToLower k) then GoValue.vStr redactionMask
          else GoValue.vStr (rs v)), hval, hs]
  | vArr items => simp [getStep] at h
  | vStrArr items => simp [getStep] at h
  | vStr s => simp [getStep] at h
  | vBytes bs => simp [getStep] at h
  | vNum q => simp [getStep] at h
  | vBool b => simp [getStep] at h
  | vNull => simp [getStep] at h

/-- Helper: redaction commutes with reading along any path whose field steps
avoid the sensitive-key set. -/
theorem getPath_redact (rs : String → String) :
    ∀ (p : List Step) (v w : GoValue), getPath v p = some w → pathOk p = true →
      getPath (redactValue rs v) p = some (redactValue rs w) := by
  intro p
  induction p with
  | nil =>
    intro v w h _
    simp only [getPath, Option.some_inj] at h
    simp [getPath, h]
  | cons s rest ih =>
    intro v w h hok
    simp only [pathOk, List.all_cons, Bool.and_eq_true] at hok
    rcases hu : getStep v s with _ | u
    · rw [getPath, hu] at h; exact absurd h (by simp)
    · rw [getPath, hu] at h
      have hstep : getStep (redactValue rs v) s = some (redactValue rs u) := by
        cases s with
        | field k =>
          have hsens : isSensitiveKey (goToLower k) = false := by
            have := hok.1
            simpa [stepOk] using this
          exact (getStep_field_redact rs v k u hu).2 hsens
        | idx n =>
          cases v with
          | vArr items =>
            simp only [getStep, List.get?_eq_getElem?] at hu
            simp only [getStep, redactValue, redactItems_eq_map,
              List.get?_eq_getElem?, List.getElem?_map, Option.map_eq_some']
            exact ⟨u, hu, rfl⟩
          | vStrArr items =>
            simp only [getStep, List.get?_eq_getElem?, Option.map_eq_some'] at hu
            obtain ⟨s', hs', hw⟩ := hu
            simp only [getStep, redactValue, List.get?_eq_getElem?,
              List.getElem?_map, Option.map_eq_some', ← hw]
            exact ⟨s', hs', rfl⟩
          | vObj fields => simp [getStep] at hu
          | vStrMap fields => simp [getStep] at hu
          | vStr s => simp [getStep] at hu
          | vBytes bs => simp [getStep] at hu
          | vNum q => simp [getStep] at hu
          | vBool b => simp [getStep] at hu
          | vNull => simp [getStep] at hu
      rw [getPath, hstep]
      exact ih u w h hok.2

/-- C1: in every value tree, an object/map entry whose key case-insensitively
matches the sensitive-key set has its entire value replaced by the mask by
`redactValue`, while a sibling entry whose key does not match holds exactly
the ordinary recursive redaction of its original value; and this holds at any
nesting depth (reading along any path avoiding sensitive keys commutes with
redaction). -/
theorem redactValue_masks_sensitive_keys (rs : String → String) :
    (∀ (v : GoValue) (k : String) (w : GoValue), getStep v (.field k) = some w →
      (isSensitiveKey (goToLower k) = true →
        getStep (redactValue rs v) (.field k) = some (.vStr redactionMask)) ∧
      (isSensitiveKey (goToLower k) = false →
        getStep (redactValue rs v) (.field k) = some (redactValue rs w))) ∧
    (∀ (v : GoValue) (p : List Step) (w : GoValue),
      getPath v p = some w → pathOk p = true →
        getPath (redactValue rs v) p = some (redactValue rs w)) :=
  ⟨fun v k w h => getStep_field_redact rs v k w h,
   fun v p w h hok => getPath_redact rs p v w h hok⟩

/-- Witness for C1: a concrete tree with a `Password` entry nested one level
deep; after redaction the sensitive entry equals the mask and a sibling entry
is the ordinary redaction of its original value. -/
theorem redactValue_masks_sensitive_keys_witness :
    getStep (redactValue (fun s => s)
        (.vObj [("Password", .vStr "hunter2"), ("name", .vStr "bob")]))
      (.field "Password") = some (.vStr redactionMask) ∧
    getPath (redactValue (fun s => s)
        (.vObj [("user", .vObj [("Password", .vStr "hunter2"),
                                ("name", .vStr "bob")])]))
      [.field "user", .field "name"]
      = some (redactValue (fun s => s) (.vStr "bob")) :=
  ⟨((redactValue_masks_sensitive_keys (fun s => s)).1 _ "Password"
      (.vStr "hunter2") (by rfl)).1 (by decide),
   (redactValue_masks_sensitive_keys (fun s => s)).2 _
      [.field "user", .field "name"] (.vStr "bob") (by rfl) (by decide)⟩

/-- Helper: inserting at a key makes lookup at that key return the new value. -/
theorem mapLookup_mapInsert_self (m : List (String × String)) (k v : String) :
    mapLookup (mapInsert m k v) k = some v := by
  induction m with
  | nil => simp [mapInsert, mapLookup]
  | cons kv rest ih =>
    by_cases h : kv.1 = k <;> simp [mapInsert, mapLookup, h, ih]

/-- Helper: inserting at a different key does not change a lookup. -/
theorem mapLookup_mapInsert_other (m : List (String × String)) (k k' v : String)
    (h : k ≠ k') : mapLookup (mapInsert m k' v) k = mapLookup m k := by
  have h' : ¬(k' = k) := fun hh => h hh.symm
  induction m with
  | nil => simp [mapInsert, mapLookup, h']
  | cons kv rest ih =>
    by_cases hk : kv.1 = k'
    · simp [mapInsert, mapLookup, hk, h']
    · by_cases hk2 : kv.1 = k
      · simp [mapInsert, mapLookup, hk, hk2, h]
      · simp [mapInsert, mapLookup, hk, hk2, ih]

/-- Helper: folding header entries whose lowered keys all differ from `lk`
does not change the lookup at `lk`. -/
theorem redactHeaders_fold_avoid (rs : String → String) (lk : String) :
    ∀ (hs : List (String × String)) (acc : List (String × String)),
      (∀ kv ∈ hs, goToLower kv.1 ≠ lk) →
      mapLookup
        (hs.foldl
          (fun out kv =>
            let lower := goToLower kv.1
            if isSensitiveKey lower then mapInsert out lower redactionMask
            else mapInsert out lower (rs kv.2))
          acc) lk = mapLookup acc lk := by
  intro hs
  induction hs with
  | nil => intro acc _; rfl
  | cons kv rest ih =>
    intro acc havoid
    have hne : lk ≠ goToLower kv.1 := fun hh => havoid kv (by simp) hh.symm
    rw [List.foldl_cons, ih _ (fun kv2 h2 => havoid kv2 (by simp [h2]))]
    by_cases hs2 : isSensitiveKey (goToLower kv.1) <;>
      simp [hs2, mapLookup_mapInsert_other _ _ _ _ hne]

/-- Helper: the lookup of a header entry after the full `redactHeaders` fold,
assuming lowered keys are pairwise distinct. -/
theorem redactHeaders_fold_lookup (rs : String → String) :
    ∀ (hs : List (String × String)) (acc : List (String × String))
      (k v : String),
      (hs.map fun kv => goToLower kv.1).Nodup →
      (k, v) ∈ hs →
      mapLookup
        (hs.foldl
          (fun out kv =>
            let lower := goToLower kv.1
            if isSensitiveKey lower then mapInsert out lower redactionMask
            else mapInsert out lower (rs kv.2))
          acc) (goToLower k)
        = some (if isSensitiveKey (goToLower k) then redactionMask else rs v) := by
  intro hs
  induction hs with
  | nil => intro acc k v _ hm; simp at hm
  | cons kv rest ih =>
    intro acc k v hnd hm
    simp only [List.map_cons, List.nodup_cons] at hnd
    rcases List.mem_cons.mp hm with heq | hmem
    · subst heq
      have havoid : ∀ kv2 ∈ rest, goToLower kv2.1 ≠ goToLower k := by
        intro kv2 h2 hcontr
        exact hnd.1 (by exact List.mem_map.mpr ⟨kv2, h2, hcontr⟩)
      rw [List.foldl_cons, redactHeaders_fold_avoid rs _ rest _ havoid]
      by_cases hs2 : isSensitiveKey (goToLower k) <;>
        simp [hs2, mapLookup_mapInsert_self]
    · exact ih _ k v hnd.2 hmem

/-- C2: for a flat header map whose lowered keys are pairwise distinct,
`redactHeaders` replaces the value of each header whose lower-cased key lies
in the sensitive-key set wholesale with the mask, and applies the string
redaction (and only it — header values are strings, nothing is recursed)
to the value of every other header: key-or-pattern, not key-and-pattern. -/
theorem redactHeaders_key_or_pattern (rs : String → String)
    (hs : List (String × String)) (k v : String)
    (hnd : (hs.map fun kv => goToLower kv.1).Nodup)
    (hm : (k, v) ∈ hs) :
    (isSensitiveKey (goToLower k) = true →
      mapLookup (redactHeaders rs hs) (goToLower k) = some redactionMask) ∧
    (isSensitiveKey (goToLower k) = false →
      mapLookup (redactHeaders rs hs) (goToLower k) = some (rs v)) := by
  constructor <;> intro hsens <;>
    have := redactHeaders_fold_lookup rs hs [] k v hnd hm <;>
    rw [redactHeaders] <;> rw [this] <;> simp [hsens]

/-- Witness for C2: a concrete header map with one sensitive and one ordinary
header; the sensitive value is masked wholesale, the ordinary value gets the
string redaction applied. -/
theorem redactHeaders_key_or_pattern_witness :
    mapLookup (redactHeaders (fun s => s ++ "!")
        [("Authorization", "Bearer t"), ("X-Req", "hi")])
      (goToLower "Authorization") = some redactionMask ∧
    mapLookup (redactHeaders (fun s => s ++ "!")
        [("Authorization", "Bearer t"), ("X-Req", "hi")])
      (goToLower "X-Req") = some "hi!" :=
  ⟨(redactHeaders_key_or_pattern (fun s => s ++ "!")
      [("Authorization", "Bearer t"), ("X-Req", "hi")]
      "Authorization" "Bearer t" (by decide) (by decide)).1 (by decide),
   (redactHeaders_key_or_pattern (fun s => s ++ "!")
      [("Authorization", "Bearer t"), ("X-Req", "hi")]
      "X-Req" "hi" (by decide) (by decide)).2 (by decide)⟩

/-- The `Event` struct of `schema.go`: one observed request/response cycle. -/
structure Event where
  url : String
  endpoint : String
  method : String
  statusCode : Int
  requestHeaders : List (String × String)
  requestBody : GoValue
  responseHeaders : List (String × String)
  responseBody : GoValue
  durationMS : Int

/-- Embedding of `RedactEvent` from `schema.go`: builds a fresh event whose
header maps and bodies are the redacted derivations and whose remaining
fields are copied unchanged (the input is never mutated — the Go code only
reads `evt` and constructs a new struct). -/
def RedactEvent (redactString : String → String) (evt : Event) : Event :=
  { url := evt.url
    endpoint := evt.endpoint
    method := evt.method
    statusCode := evt.statusCode
    requestHeaders := redactHeaders redactString evt.requestHeaders
    requestBody := redactValue redactString evt.requestBody
    responseHeaders := redactHeaders redactString evt.responseHeaders
    responseBody := redactValue redactString evt.responseBody
    durationMS := evt.durationMS }

/-- C10: `RedactEvent` preserves URL, endpoint, method, status code and
duration, and changes exactly the header maps and bodies, which become the
redacted derivations of the input fields; the input event itself is
untouched (the embedding is pure, mirroring that the Go code constructs a
new struct and never writes through `evt`). -/
theorem RedactEvent_frame (rs : String → String) (evt : Event) :
    (RedactEvent rs evt).url = evt.url ∧
    (RedactEvent rs evt).endpoint = evt.endpoint ∧
    (RedactEvent rs evt).method = evt.method ∧
    (RedactEvent rs evt).statusCode = evt.statusCode ∧
    (RedactEvent rs evt).durationMS = evt.durationMS ∧
    (RedactEvent rs evt).requestHeaders = redactHeaders rs evt.requestHeaders ∧
    (RedactEvent rs evt).requestBody = redactValue rs evt.requestBody ∧
    (RedactEvent rs evt).responseHeaders = redactHeaders rs evt.responseHeaders ∧
    (RedactEvent rs evt).responseBody = redactValue rs evt.responseBody :=
  ⟨rfl, rfl, rfl, rfl, rfl, rfl, rfl, rfl, rfl⟩

/-- The constant `maxAttempts` of `send.go`. -/
def maxAttempts : Nat := 3

/-- Embedding of `isRetryableStatus` from `send.go`: 408 (request timeout),
429 (too many requests) or any status in `[500, 600)`. -/
def isRetryableStatus (status : Nat) : Bool :=
  if status == 408 || status == 429 then true
  else 500 ≤ status && status < 600

/-- The observable result of one HTTP POST attempt: either a response with a
status code, or a transport error together with its `isRetryableError`
classification (that classifier inspects Go error types and is kept
abstract as a boolean here). -/
inductive Outcome where
  | resp (status : Nat)
  | errOut (retryable : Bool)

/-- Whether an attempt outcome lets the loop in `Monitor.send` retry. -/
def outcomeRetryable : Outcome → Bool
  | .resp s => isRetryableStatus s
  | .errOut r => r

/-- Whether an attempt outcome is a 2xx success. -/
def outcome2xx : Outcome → Bool
  | .resp s => 200 ≤ s && s < 300
  | .errOut _ => false

/-- Embedding of the retry loop of `Monitor.send`: `attempt` is the 0-based
index of the current attempt, `fuel` the number of loop iterations left
(`maxAttempts - attempt`); `outcomes` gives the result of each attempt.
Returns the number of attempts issued and whether the loop ended in a 2xx
success.  Mirrors the branch structure of `send.go` lines 124-160. -/
def sendLoop (outcomes : Nat → Outcome) : Nat → Nat → Nat × Bool
  | _, 0 => (maxAttempts, false)
  | attempt, fuel + 1 =>
    match outcomes attempt with
    | .resp s =>
      if 200 ≤ s && s < 300 then (attempt + 1, true)
      else if !isRetryableStatus s || attempt == maxAttempts - 1 then
        (attempt + 1, false)
      else sendLoop outcomes (attempt + 1) fuel
    | .errOut r =>
      if !r || attempt == maxAttempts - 1 then (attempt + 1, false)
      else sendLoop outcomes (attempt + 1) fuel

/-- The whole send loop for one event, given the outcome of each attempt. -/
def send (outcomes : Nat → Outcome) : Nat × Bool :=
  sendLoop outcomes 0 maxAttempts

/-- Helper: behaviour of the retry loop from any attempt index, by induction
on the remaining fuel (`attempt + fuel = maxAttempts` along the loop). -/
theorem sendLoop_spec (outcomes : Nat → Outcome) :
    ∀ (fuel attempt n : Nat) (b : Bool), 1 ≤ fuel → attempt + fuel = 3 →
      sendLoop outcomes attempt fuel = (n, b) →
      (attempt + 1 ≤ n ∧ n ≤ 3) ∧
      (b = true ↔ outcome2xx (outcomes (n - 1)) = true) ∧
      (∀ i, attempt ≤ i → i + 1 < n →
        outcomeRetryable (outcomes i) = true ∧ outcome2xx (outcomes i) = false) ∧
      (b = false → n = 3 ∨ outcomeRetryable (outcomes (n - 1)) = false) ∧
      (outcome2xx (outcomes attempt) = true → n = attempt + 1 ∧ b = true) := by
  intro fuel
  induction fuel with
  | zero => intro attempt n b h1 _ _; omega
  | succ f ih =>
    intro attempt n b _ hsum heq
    rw [sendLoop] at heq
    split at heq
    next s h0 =>
      split at heq
      next h2 =>
        cases heq
        refine ⟨⟨by omega, by omega⟩, ?_, ?_, ?_, ?_⟩
        · simp [outcome2xx, h0, h2]
        · intro i hi hilt; omega
        · intro hb; cases hb
        · intro _; exact ⟨rfl, rfl⟩
      next h2 =>
        have h2f : (200 ≤ s && s < 300) = false := by
          revert h2; cases (200 ≤ s && s < 300) <;> simp
        split at heq
        next h3 =>
          cases heq
          refine ⟨⟨by omega, by omega⟩, ?_, ?_, ?_, ?_⟩
          · simp [outcome2xx, h0, h2f]
          · intro i hi hilt; omega
          · intro _
            rcases Bool.or_eq_true _ _ |>.mp h3 with hret | hlast
            · right; simpa [outcomeRetryable, h0] using hret
            · left; have : attempt = 2 := by simpa [maxAttempts] using hlast
              omega
          · intro h2xx
            rw [h0] at h2xx
            simp only [outcome2xx] at h2xx
            rw [h2xx] at h2f
            cases h2f
        next h3 =>
          have h3' : isRetryableStatus s = true ∧ attempt ≠ 2 := by
            constructor
            · by_contra hc
              exact h3 (Bool.or_eq_true _ _ |>.mpr (Or.inl (by
                revert hc; cases isRetryableStatus s <;> simp)))
            · intro hc
              exact h3 (Bool.or_eq_true _ _ |>.mpr (Or.inr
                (by simp [hc, maxAttempts])))
          have hspec := ih (attempt + 1) n b (by omega) (by omega) heq
          refine ⟨⟨by omega, hspec.1.2⟩, hspec.2.1, ?_, hspec.2.2.2.1, ?_⟩
          · intro i hi hilt
            by_cases hieq : i = attempt
            · subst hieq
              exact ⟨by simp [outcomeRetryable, h0, h3'.1],
                     by simp [outcome2xx, h0, h2f]⟩
            · exact hspec.2.2.1 i (by omega) hilt
          · intro h2xx
            rw [h0] at h2xx
            simp only [outcome2xx] at h2xx
            rw [h2xx] at h2f
            cases h2f
    next r h0 =>
      split at heq
      next h3 =>
        cases heq
        refine ⟨⟨by omega, by omega⟩, ?_, ?_, ?_, ?_⟩
        · simp [outcome2xx, h0]
        · intro i hi hilt; omega
        · intro _
          rcases Bool.or_eq_true _ _ |>.mp h3 with hret | hlast
          · right; simpa [outcomeRetryable, h0] using hret
          · left; have : attempt = 2 := by simpa [maxAttempts] using hlast
            omega
        · intro h2xx; rw [h0] at h2xx; simp [outcome2xx] at h2xx
      next h3 =>
        have h3' : r = true ∧ attempt ≠ 2 := by
          constructor
          · by_contra hc
            exact h3 (Bool.or_eq_true _ _ |>.mpr (Or.inl (by
              revert hc; cases r <;> simp)))
          · intro hc
            exact h3 (Bool.or_eq_true _ _ |>.mpr (Or.inr
              (by simp [hc, maxAttempts])))
        have hspec := ih (attempt + 1) n b (by omega) (by omega) heq
        refine ⟨⟨by omega, hspec.1.2⟩, hspec.2.1, ?_, hspec.2.2.2.1, ?_⟩
        · intro i hi hilt
          by_cases hieq : i = attempt
          · subst hieq
            exact ⟨by simp [outcomeRetryable, h0, h3'.1],
                   by simp [outcome2xx, h0]⟩
          · exact hspec.2.2.1 i (by omega) hilt
        · intro h2xx; rw [h0] at h2xx; simp [outcome2xx] at h2xx

/-- C3: the send loop issues at most 3 attempts; it ends successfully exactly
when the last attempt examined returned a 2xx status; every attempt that was
followed by a further attempt was retryable (status 408, 429 or in
`[500, 600)`, or a transport error classified retryable) and not a 2xx; a
dropped event means either all 3 attempts were used or the last outcome was
not retryable (terminal response or error ends the loop immediately); and a
first-attempt 2xx means exactly one attempt. -/
theorem send_retry_policy (outcomes : Nat → Outcome) :
    (1 ≤ (send outcomes).1 ∧ (send outcomes).1 ≤ 3) ∧
    ((send outcomes).2 = true ↔
      outcome2xx (outcomes ((send outcomes).1 - 1)) = true) ∧
    (∀ i, i + 1 < (send outcomes).1 →
      outcomeRetryable (outcomes i) = true ∧ outcome2xx (outcomes i) = false) ∧
    ((send outcomes).2 = false →
      (send outcomes).1 = 3 ∨
        outcomeRetryable (outcomes ((send outcomes).1 - 1)) = false) ∧
    (outcome2xx (outcomes 0) = true → send outcomes = (1, true)) := by
  have h := sendLoop_spec outcomes 3 0 (send outcomes).1 (send outcomes).2
    (by omega) (by omega) rfl
  refine ⟨⟨h.1.1, h.1.2⟩, h.2.1, ?_, h.2.2.2.1, ?_⟩
  · intro i hilt
    exact h.2.2.1 i (by omega) hilt
  · intro h2xx
    have := h.2.2.2.2 h2xx
    have hp : send outcomes = ((send outcomes).1, (send outcomes).2) := rfl
    rw [hp, this.1, this.2]

/-- Witness for C3: the spec scenario — two 500 responses followed by a 200 —
issues exactly 3 attempts and succeeds, and the theorem certifies that the
first (continued-past) attempt was retryable and not a 2xx. -/
theorem send_retry_policy_witness :
    outcomeRetryable (Outcome.resp 500) = true ∧
    outcome2xx (Outcome.resp 500) = false ∧
    (send fun i => if i < 2 then Outcome.resp 500 else Outcome.resp 200)
      = (3, true) := by
  have h := send_retry_policy
    (fun i => if i < 2 then Outcome.resp 500 else Outcome.resp 200)
  exact ⟨(h.2.2.1 0 (by decide)).1, (h.2.2.1 0 (by decide)).2, by decide⟩

/-- The constant `baseBackoff` of `send.go` (250ms), in nanoseconds. -/
def baseBackoff : Nat := 250000000

/-- The constant `maxBackoff` of `send.go` (2s), in nanoseconds. -/
def maxBackoff : Nat := 2000000000

/-- Embedding of the backoff update at the end of a loop iteration of
`Monitor.send`: double and cap at `maxBackoff`, leave alone once there. -/
def nextBackoff (b : Nat) : Nat :=
  if b < maxBackoff then (if b * 2 > maxBackoff then maxBackoff else b * 2) else b

/-- The base backoff slept before the `(k+1)`-th retry (0-based `k`): the
loop starts at `baseBackoff` and applies `nextBackoff` after each sleep. -/
def backoffBeforeRetry : Nat → Nat
  | 0 => baseBackoff
  | k + 1 => nextBackoff (backoffBeforeRetry k)

/-- Embedding of the jitter factor of `Monitor.jitter`:
`0.8 + 0.4 * u` where `u` is drawn from `[0, 1)` by `rand.Float64`
(modelled over the rationals; float rounding is not modelled). -/
def jitterFactor (u : ℚ) : ℚ := 8/10 + 4/10 * u

/-- The slept duration: the base multiplied by the jitter factor
(`time.Duration(float64(base) * factor)`; truncation to whole nanoseconds
is not modelled). -/
def jitterSleep (base : Nat) (u : ℚ) : ℚ := (base : ℚ) * jitterFactor u

/-- Helper: closed form of the backoff recurrence. -/
theorem backoffBeforeRetry_eq (k : Nat) :
    backoffBeforeRetry k = min (baseBackoff * 2 ^ k) maxBackoff := by
  induction k with
  | zero =>
    simp only [backoffBeforeRetry, baseBackoff, maxBackoff, pow_zero, mul_one]
    omega
  | succ k ih =>
    rw [backoffBeforeRetry, ih, pow_succ]
    have h2 : baseBackoff * (2 ^ k * 2) = baseBackoff * 2 ^ k * 2 := by ring
    rw [h2]
    generalize baseBackoff * 2 ^ k = x
    simp only [nextBackoff, maxBackoff]
    split
    · split <;> omega
    · omega

/-- C9: the base backoff before the `(k+1)`-th retry equals
`min(250ms * 2^k, 2s)` — it starts at 250ms (retry 1), is 500ms for retry 2,
doubles each retry and never exceeds 2s — and the slept duration is the base
multiplied by the jitter factor `0.8 + 0.4 * u`, which lies in `[0.8, 1.2]`
for every `u` drawn from `[0, 1)`. -/
theorem backoff_jitter_policy (k : Nat) (u : ℚ) (h0 : 0 ≤ u) (h1 : u < 1) :
    backoffBeforeRetry k = min (baseBackoff * 2 ^ k) maxBackoff ∧
    backoffBeforeRetry 0 = 250000000 ∧
    backoffBeforeRetry 1 = 500000000 ∧
    backoffBeforeRetry k ≤ maxBackoff ∧
    ((4 : ℚ)/5 ≤ jitterFactor u ∧ jitterFactor u ≤ 6/5) ∧
    jitterSleep (backoffBeforeRetry k) u
      = (backoffBeforeRetry k : ℚ) * jitterFactor u ∧
    ((4 : ℚ)/5 * (backoffBeforeRetry k : ℚ) ≤ jitterSleep (backoffBeforeRetry k) u ∧
      jitterSleep (backoffBeforeRetry k) u ≤ (6 : ℚ)/5 * (backoffBeforeRetry k : ℚ)) := by
  have hfac : (4 : ℚ)/5 ≤ jitterFactor u ∧ jitterFactor u ≤ 6/5 := by
    unfold jitterFactor
    constructor <;> linarith
  have hb : (0 : ℚ) ≤ (backoffBeforeRetry k : ℚ) := by positivity
  refine ⟨backoffBeforeRetry_eq k, rfl, ?_, ?_, hfac, rfl, ?_, ?_⟩
  · rfl
  · rw [backoffBeforeRetry_eq k]; exact min_le_right _ _
  · calc (4 : ℚ)/5 * (backoffBeforeRetry k : ℚ)
        = (backoffBeforeRetry k : ℚ) * ((4 : ℚ)/5) := by ring
      _ ≤ (backoffBeforeRetry k : ℚ) * jitterFactor u :=
        mul_le_mul_of_nonneg_left hfac.1 hb
      _ = jitterSleep (backoffBeforeRetry k) u := rfl
  · calc jitterSleep (backoffBeforeRetry k) u
        = (backoffBeforeRetry k : ℚ) * jitterFactor u := rfl
      _ ≤ (backoffBeforeRetry k : ℚ) * ((6 : ℚ)/5) :=
        mul_le_mul_of_nonneg_left hfac.2 hb
      _ = (6 : ℚ)/5 * (backoffBeforeRetry k : ℚ) := by ring

/-- Witness for C9: at `u = 1/2` the jitter factor is 1 and the backoff
before the second retry is 500ms. -/
theorem backoff_jitter_policy_witness :
    backoffBeforeRetry 1 = 500000000 ∧
    (4 : ℚ)/5 ≤ jitterFactor (1/2) ∧ jitterFactor (1/2) ≤ 6/5 :=
  ⟨(backoff_jitter_policy 1 (1/2) (by norm_num) (by norm_num)).2.2.1,
   (backoff_jitter_policy 1 (1/2) (by norm_num) (by norm_num)).2.2.2.2.1.1,
   (backoff_jitter_policy 1 (1/2) (by norm_num) (by norm_num)).2.2.2.2.1.2⟩

/-- The dispatcher state relevant to `Monitor.AddEvent` (`send.go`):
whether the receiver is the nil pointer, the `enabled` flag, whether
`Shutdown` has run (`Shutdown` closes `closeCh` and then, for an enabled
monitor, the `events` channel itself), the buffered queue contents and the
channel capacity (`cfg.QueueSize`). -/
structure MonitorState where
  isNil : Bool
  enabled : Bool
  closed : Bool
  queue : List String
  capacity : Nat
deriving DecidableEq

/-- The observable outcome of one `AddEvent` call. -/
inductive AddOutcome where
  | noop
  | enqueued
  | dropped
  | panicked
deriving DecidableEq

/-- Embedding of `Monitor.AddEvent` under Go `select` semantics, as the list
of possible (state, outcome) results.  A nil or disabled monitor returns
early.  Otherwise the `select` fires one uniformly chosen ready case: the
send case `m.events <- evt` is ready when the buffer has space — or when the
channel is closed, in which case firing it panics; the `<-m.closeCh` case is
ready when `closeCh` is closed; the `default` case (drop and log) fires only
when no other case is ready.  The dispatch loop is assumed not to be
concurrently receiving (as in the spec scenario where it is blocked). -/
def addEvent (st : MonitorState) (evt : String) :
    List (MonitorState × AddOutcome) :=
  if st.isNil || !st.enabled then [(st, AddOutcome.noop)]
  else
    let ready :=
      (if st.closed || st.queue.length < st.capacity then
        [if st.closed then (st, AddOutcome.panicked)
         else ({ st with queue := st.queue ++ [evt] }, AddOutcome.enqueued)]
       else [])
      ++ (if st.closed then [(st, AddOutcome.noop)] else [])
    if ready.isEmpty then [(st, AddOutcome.dropped)] else ready

/-- C4 (code bug): on an enabled monitor that has been shut down, `AddEvent`
is not a silent no-op — the select may fire the send case on the closed
`events` channel and panic.  On a live monitor the call is deterministic and
non-blocking: it appends when the queue holds fewer than `capacity` events
and drops (with a diagnostic log) when full, so the queue never exceeds
`capacity`; nil and disabled monitors no-op. -/
theorem addEvent_shutdown_can_panic :
    ((⟨false, true, true, [], 5⟩ : MonitorState), AddOutcome.panicked) ∈
      addEvent ⟨false, true, true, [], 5⟩ "e" ∧
    addEvent ⟨false, true, false, ["a", "b", "c"], 3⟩ "e"
      = [(⟨false, true, false, ["a", "b", "c"], 3⟩, AddOutcome.dropped)] ∧
    addEvent ⟨false, true, false, ["a"], 3⟩ "e"
      = [(⟨false, true, false, ["a", "e"], 3⟩, AddOutcome.enqueued)] ∧
    addEvent ⟨true, true, false, [], 3⟩ "e"
      = [(⟨true, true, false, [], 3⟩, AddOutcome.noop)] ∧
    addEvent ⟨false, false, false, [], 3⟩ "e"
      = [(⟨false, false, false, [], 3⟩, AddOutcome.noop)] := by
  refine ⟨?_, by decide, by decide, by decide, by decide⟩
  decide

/-- A base64url character: `A-Z`, `a-z`, `0-9`, `_` or `-`
(the character class of `projectKeyPattern` in `schema.go`). -/
def isB64urlChar (c : Char) : Bool :=
  ('A' ≤ c && c ≤ 'Z') || ('a' ≤ c && c ≤ 'z') || ('0' ≤ c && c ≤ '9') ||
    c == '_' || c == '-'

/-- Embedding of the regex `^pk_[A-Za-z0-9_-]{22}$` (`projectKeyPattern`). -/
def projectKeyMatch (s : String) : Bool :=
  match s.data with
  | c1 :: c2 :: c3 :: rest =>
      c1 == 'p' && c2 == 'k' && c3 == '_' &&
      rest.length == 22 && rest.all isB64urlChar
  | _ => false

/-- An ASCII digit. -/
def isDigitChar (c : Char) : Bool := '0' ≤ c && c ≤ '9'

/-- Strips an exact character-list prefix, returning the remainder. -/
def stripPre : List Char → List Char → Option (List Char)
  | s, [] => some s
  | [], _ :: _ => none
  | c :: cs, d :: ds => if c = d then stripPre cs ds else none

/-- Matches `<host>:<digits>/api/monitor/ingest` against a character list. -/
def hostThenPort (rest : List Char) (host : String) : Bool :=
  match stripPre rest (host.data ++ [':']) with
  | none => false
  | some r =>
      !(r.takeWhile isDigitChar).isEmpty &&
      r.dropWhile isDigitChar == "/api/monitor/ingest".data

/-- Embedding of the regex
`^http://(?:localhost|127\.0\.0\.1|\[::1\]):\d+/api/monitor/ingest$`
(`localEndpointPattern` in `schema.go`); since `/` is not a digit, the
greedy `\d+` is equivalent to the maximal digit run being non-empty with
the literal path following exactly. -/
def localEndpointMatch (s : String) : Bool :=
  match stripPre s.data "http://".data with
  | none => false
  | some rest =>
      hostThenPort rest "localhost" || hostThenPort rest "127.0.0.1" ||
      hostThenPort rest "[::1]"

/-- The constant `defaultEndpoint` of `schema.go`. -/
def defaultEndpoint : String := "https://monitor.aikocorp.ai/api/ingest"

/-- The constant `stagingEndpoint` of `schema.go`. -/
def stagingEndpoint : String := "https://staging.aikocorp.ai/api/monitor/ingest"

/-- Embedding of `ValidateConfig` from `schema.go`; `some msg` models the
returned error, `none` models `nil`.  Note the secret key check is
`len(secretKey) != 43` — a pure byte-length test. -/
def ValidateConfig (projectKey secretKey endpoint : String) : Option String :=
  if !projectKeyMatch projectKey then
    some "projectKey must start with pk_ followed by 22 base64url characters"
  else if !(secretKey.utf8ByteSize == 43) then
    some "secretKey must be exactly 43 base64url characters"
  else if !(endpoint == defaultEndpoint) && !(endpoint == stagingEndpoint) &&
      !localEndpointMatch endpoint then
    some "endpoint must match http://localhost:PORT/api/monitor/ingest or be the fixed production or staging URL"
  else none

/-- The project-key rule in the words of the spec: the literal prefix `pk_`
followed by exactly 22 base64url characters. -/
def specProjectKeyOK (s : String) : Bool :=
  strStarts s "pk_" && (s.data.drop 3).length == 22 &&
    (s.data.drop 3).all isB64urlChar

/-- The secret-key rule in the words of the spec: exactly 43 base64url
characters. -/
def specSecretKeyOK (s : String) : Bool :=
  s.data.length == 43 && s.data.all isB64urlChar

/-- The endpoint rule: the fixed production URL, the fixed staging URL, or a
local `http://(localhost|127.0.0.1|[::1]):<port>/api/monitor/ingest`. -/
def specEndpointOK (s : String) : Bool :=
  s == defaultEndpoint || s == stagingEndpoint || localEndpointMatch s

/-- Helper: the embedded project-key regex agrees with the spec wording. -/
theorem projectKeyMatch_eq_spec (s : String) :
    projectKeyMatch s = specProjectKeyOK s := by
  obtain ⟨cs⟩ := s
  rcases cs with _ | ⟨c1, _ | ⟨c2, _ | ⟨c3, rest⟩⟩⟩ <;>
    simp [projectKeyMatch, specProjectKeyOK, strStarts, listStarts,
      Bool.and_assoc]

/-- C5 counterexample: a secret key of 43 `!` characters is not made of
base64url characters, yet `ValidateConfig` accepts it (only the length is
checked), so the claimed if-and-only-if fails at this input. -/
theorem ValidateConfig_not_iff_spec :
    ¬(ValidateConfig "pk_ABCDEFGHIJKLMNOPQRSTUV"
        "!!!!!!!!!!!!!!!!!!!!!!!!!!!!!!!!!!!!!!!!!!!" defaultEndpoint = none ↔
      (specProjectKeyOK "pk_ABCDEFGHIJKLMNOPQRSTUV" = true ∧
       specSecretKeyOK "!!!!!!!!!!!!!!!!!!!!!!!!!!!!!!!!!!!!!!!!!!!" = true ∧
       specEndpointOK defaultEndpoint = true)) := by decide

/-- C5 (amended): `ValidateConfig` returns no error iff the project key is
the literal `pk_` followed by exactly 22 base64url characters, the secret
key is exactly 43 bytes long (character content is not validated here), and
the endpoint is the fixed production URL, the fixed staging URL, or matches
the local `http://(localhost|127.0.0.1|[::1]):<port>/api/monitor/ingest`
pattern; otherwise it returns an error naming the violated rule. -/
theorem ValidateConfig_length_only (pk sk ep : String) :
    ValidateConfig pk sk ep = none ↔
      (specProjectKeyOK pk = true ∧ sk.utf8ByteSize = 43 ∧
        specEndpointOK ep = true) := by
  rw [← projectKeyMatch_eq_spec]
  unfold ValidateConfig specEndpointOK
  by_cases h1 : projectKeyMatch pk
  · by_cases h2 : sk.utf8ByteSize = 43
    · by_cases h3a : ep = defaultEndpoint
      · simp [h1, h2, h3a]
      · by_cases h3b : ep = stagingEndpoint
        · simp [h1, h2, h3a, h3b]
        · by_cases h3c : localEndpointMatch ep
          · simp [h1, h2, h3a, h3b, h3c]
          · simp [h1, h2, h3a, h3b, h3c]
    · simp [h1, h2]
  · simp [h1]

/-- Witness for C5 (amended): a well-formed configuration validates. -/
theorem ValidateConfig_length_only_witness :
    ValidateConfig "pk_ABCDEFGHIJKLMNOPQRSTUV"
      "AAAAAAAAAAAAAAAAAAAAAAAAAAAAAAAAAAAAAAAAAAA" defaultEndpoint = none :=
  (ValidateConfig_length_only _ _ _).mpr ⟨by decide, by decide, by decide⟩

/-- Helper: reading back the code point a character was built from. -/
theorem charOfNat_toNat (n : Nat) (h : n.isValidChar) :
    (Char.ofNat n).toNat = n := by
  simp [Char.ofNat, h, Char.toNat, Char.ofNatAux, UInt32.toNat,
    UInt32.ofNatCore, BitVec.toNat_ofNatLt]

/-- Helper: ASCII lower-casing is idempotent on characters. -/
theorem lowerChar_idem (c : Char) : lowerChar (lowerChar c) = lowerChar c := by
  unfold lowerChar
  by_cases h : 65 ≤ c.toNat ∧ c.toNat ≤ 90
  · rw [if_pos h]
    have hv : (c.toNat + 32).isValidChar := Or.inl (by omega)
    have ht : (Char.ofNat (c.toNat + 32)).toNat = c.toNat + 32 :=
      charOfNat_toNat _ hv
    rw [if_neg (by rw [ht]; omega)]
  · rw [if_neg h, if_neg h]

/-- Helper: lower-casing a string is idempotent. -/
theorem goToLower_idem (s : String) : goToLower (goToLower s) = goToLower s := by
  show String.mk ((s.data.map lowerChar).map lowerChar)
      = String.mk (s.data.map lowerChar)
  rw [List.map_map]
  have hcomp : lowerChar ∘ lowerChar = lowerChar := funext lowerChar_idem
  rw [hcomp]

/-- Helper: lower-casing never turns a non-empty string empty. -/
theorem goToLower_ne_empty (s : String) (h : s ≠ "") : goToLower s ≠ "" := by
  intro hc
  apply h
  obtain ⟨cs⟩ := s
  cases cs with
  | nil => rfl
  | cons c rest => exact absurd (congrArg String.data hc) (by simp [goToLower])

/-- Embedding of the merge rule of `CanonicalHeaderMap` (`core.go`): an empty
existing value is replaced, an empty or identical incoming value keeps the
existing one, anything else joins with a comma. -/
def mergeHeaderValue (existing value : String) : String :=
  if existing = "" then value
  else if value = "" ∨ value = existing then existing
  else existing ++ ", " ++ value

/-- Embedding of one iteration of the `CanonicalHeaderMap` loop: skip empty
keys, lower-case the key, merge with an existing entry or append a new one. -/
def canonStep (normalized : List (String × String)) (kv : String × String) :
    List (String × String) :=
  if kv.1 = "" then normalized
  else
    match mapLookup normalized (goToLower kv.1) with
    | some existing =>
        mapInsert normalized (goToLower kv.1) (mergeHeaderValue existing kv.2)
    | none => normalized ++ [(goToLower kv.1, kv.2)]

/-- Embedding of `CanonicalHeaderMap` from `core.go`: fold the entries of the
input map (in iteration order) into a fresh lower-keyed map. -/
def CanonicalHeaderMap (headers : List (String × String)) :
    List (String × String) :=
  headers.foldl canonStep []

/-- The invariant of the normalized map: keys are non-empty, fixed under
lower-casing, and pairwise distinct. -/
def canonInv (m : List (String × String)) : Prop :=
  (∀ kv ∈ m, kv.1 ≠ "" ∧ goToLower kv.1 = kv.1) ∧ (m.map Prod.fst).Nodup

/-- Helper: a `none` lookup means the key is absent. -/
theorem mapLookup_eq_none_iff (m : List (String × String)) (k : String) :
    mapLookup m k = none ↔ k ∉ m.map Prod.fst := by
  induction m with
  | nil => simp [mapLookup]
  | cons kv rest ih =>
    by_cases h : kv.1 = k
    · rw [mapLookup, if_pos h]
      simp only [List.map_cons, List.mem_cons]
      constructor
      · intro hc; cases hc
      · intro hc; exact absurd (Or.inl h.symm) hc
    · rw [mapLookup, if_neg h, ih]
      simp only [List.map_cons, List.mem_cons]
      constructor
      · intro hnot hor
        rcases hor with he | hm
        · exact h he.symm
        · exact hnot hm
      · intro hnot hm
        exact hnot (Or.inr hm)

/-- Helper: overwriting a present key leaves the key list unchanged. -/
theorem mapInsert_keys_of_mem (m : List (String × String)) (k v : String)
    (h : k ∈ m.map Prod.fst) :
    (mapInsert m k v).map Prod.fst = m.map Prod.fst := by
  induction m with
  | nil => simp at h
  | cons kv rest ih =>
    by_cases hk : kv.1 = k
    · simp [mapInsert, hk]
    · have h2 : k ∈ rest.map Prod.fst := by
        rcases List.mem_map.mp h with ⟨kv2, hm2, he2⟩
        rcases List.mem_cons.mp hm2 with he | hr
        · exact absurd (he ▸ he2) hk
        · exact List.mem_map.mpr ⟨kv2, hr, he2⟩
      simp [mapInsert, hk, ih h2]

/-- Helper: inserting the value already stored at a key is a no-op. -/
theorem mapInsert_lookup_self (m : List (String × String)) (k v : String)
    (h : mapLookup m k = some v) : mapInsert m k v = m := by
  induction m with
  | nil => simp [mapLookup] at h
  | cons kv rest ih =>
    obtain ⟨k1, v1⟩ := kv
    by_cases hk : k1 = k
    · subst hk
      rw [mapLookup, if_pos rfl] at h
      cases h
      simp [mapInsert]
    · rw [mapLookup, if_neg hk] at h
      simp [mapInsert, hk, ih h]

/-- Helper: merging a value with itself yields that value. -/
theorem mergeHeaderValue_self (v : String) : mergeHeaderValue v v = v := by
  unfold mergeHeaderValue
  by_cases h : v = "" <;> simp [h]

/-- Helper: one canonicalization step preserves the invariant. -/
theorem canonStep_inv (m : List (String × String)) (kv : String × String)
    (h : canonInv m) : canonInv (canonStep m kv) := by
  unfold canonStep
  by_cases hk : kv.1 = ""
  · simpa [hk] using h
  · rw [if_neg hk]
    rcases hl : mapLookup m (goToLower kv.1) with _ | existing
    · refine ⟨?_, ?_⟩
      · intro kv2 hm2
        rcases List.mem_append.mp hm2 with hin | hnew
        · exact h.1 kv2 hin
        · have : kv2 = (goToLower kv.1, kv.2) := by simpa using hnew
          subst this
          exact ⟨goToLower_ne_empty _ hk, goToLower_idem _⟩
      · have habs : goToLower kv.1 ∉ m.map Prod.fst :=
          (mapLookup_eq_none_iff m _).mp hl
        have hdisj : (m.map Prod.fst).Disjoint [goToLower kv.1] := by
          intro a ha hb
          simp only [List.mem_singleton] at hb
          subst hb
          exact habs ha
        rw [List.map_append]
        exact List.Nodup.append h.2 (by simp) hdisj
    · have hmem : goToLower kv.1 ∈ m.map Prod.fst := by
        by_contra hc
        rw [(mapLookup_eq_none_iff m _).mpr hc] at hl
        cases hl
      refine ⟨?_, ?_⟩
      · intro kv2 hm2
        have hkeys := mapInsert_keys_of_mem m (goToLower kv.1)
          (mergeHeaderValue existing kv.2) hmem
        have hk2 : kv2.1 ∈ m.map Prod.fst := by
          rw [← hkeys]
          exact List.mem_map.mpr ⟨kv2, hm2, rfl⟩
        rcases List.mem_map.mp hk2 with ⟨kv3, hm3, he3⟩
        have hp := h.1 kv3 hm3
        rw [← he3]
        exact hp
      · rw [mapInsert_keys_of_mem m _ _ hmem]
        exact h.2

/-- Helper: the canonicalization fold preserves the invariant. -/
theorem canonFold_inv (hs : List (String × String)) :
    ∀ acc, canonInv acc → canonInv (hs.foldl canonStep acc) := by
  induction hs with
  | nil => intro acc h; exact h
  | cons kv rest ih => intro acc h; exact ih _ (canonStep_inv acc kv h)

/-- Helper: the output of `CanonicalHeaderMap` satisfies the invariant. -/
theorem CanonicalHeaderMap_inv (headers : List (String × String)) :
    canonInv (CanonicalHeaderMap headers) :=
  canonFold_inv headers [] ⟨by simp, by simp⟩

/-- Helper: folding entries that already satisfy the invariant and whose keys
avoid the accumulator appends them unchanged. -/
theorem canonFold_id : ∀ (m acc : List (String × String)),
    (∀ kv ∈ m, kv.1 ≠ "" ∧ goToLower kv.1 = kv.1) →
    (m.map Prod.fst).Nodup →
    (∀ kv ∈ m, kv.1 ∉ acc.map Prod.fst) →
    m.foldl canonStep acc = acc ++ m := by
  intro m
  induction m with
  | nil => intro acc _ _ _; simp
  | cons kv rest ih =>
    intro acc hinv hnd hdisj
    simp only [List.map_cons, List.nodup_cons] at hnd
    have hkv := hinv kv (by simp)
    have hstep : canonStep acc kv = acc ++ [(kv.1, kv.2)] := by
      unfold canonStep
      rw [if_neg hkv.1, hkv.2,
        (mapLookup_eq_none_iff acc kv.1).mpr (hdisj kv (by simp))]
    rw [List.foldl_cons, hstep,
      ih (acc ++ [(kv.1, kv.2)])
        (fun kv2 h2 => hinv kv2 (List.mem_cons_of_mem _ h2))
        hnd.2
        (by
          intro kv2 h2
          rw [List.map_append, List.mem_append]
          rintro (hin | hnew)
          · exact hdisj kv2 (List.mem_cons_of_mem _ h2) hin
          · have : kv2.1 = kv.1 := by simpa using hnew
            exact hnd.1 (this ▸ List.mem_map.mpr ⟨kv2, h2, rfl⟩))]
    simp

/-- C8: `CanonicalHeaderMap` is idempotent — applying it to its own output
returns an equal map; an entry with an empty key is skipped; an entry in the
output never has an empty key; and merging a value identical to the one
already present for a key leaves the map unchanged (no duplication in the
joined value). -/
theorem CanonicalHeaderMap_idempotent :
    (∀ headers, CanonicalHeaderMap (CanonicalHeaderMap headers)
        = CanonicalHeaderMap headers) ∧
    (∀ m v, canonStep m ("", v) = m) ∧
    (∀ headers kv, kv ∈ CanonicalHeaderMap headers → kv.1 ≠ "") ∧
    (∀ m k v, mapLookup m (goToLower k) = some v → canonStep m (k, v) = m) := by
  refine ⟨?_, ?_, ?_, ?_⟩
  · intro headers
    have h := canonFold_id (CanonicalHeaderMap headers) []
      (CanonicalHeaderMap_inv headers).1 (CanonicalHeaderMap_inv headers).2
      (by simp)
    simpa [CanonicalHeaderMap] using h
  · intro m v
    simp [canonStep]
  · intro headers kv hm
    exact ((CanonicalHeaderMap_inv headers).1 kv hm).1
  · intro m k v hl
    by_cases hk : k = ""
    · simp [canonStep, hk]
    · unfold canonStep
      rw [if_neg hk, hl]
      show mapInsert m (goToLower k) (mergeHeaderValue v v) = m
      rw [mergeHeaderValue_self]
      exact mapInsert_lookup_self m _ v hl

/-- Witness for C8: a concrete map with mixed-case duplicate keys and an
empty key canonicalizes idempotently, and re-merging an identical value is a
no-op. -/
theorem CanonicalHeaderMap_idempotent_witness :
    CanonicalHeaderMap (CanonicalHeaderMap
        [("X-A", "1"), ("x-a", "1"), ("", "z")])
      = CanonicalHeaderMap [("X-A", "1"), ("x-a", "1"), ("", "z")] ∧
    canonStep [("x-a", "1")] ("X-A", "1") = [("x-a", "1")] :=
  ⟨CanonicalHeaderMap_idempotent.1 [("X-A", "1"), ("x-a", "1"), ("", "z")],
   CanonicalHeaderMap_idempotent.2.2.2 [("x-a", "1")] "X-A" "1" (by decide)⟩

/-- A UTF-8 continuation byte. -/
def isCont (b : Nat) : Bool := 128 ≤ b && b ≤ 191

/-- Model of Go `utf8.Valid` over byte lists: the standard Unicode acceptance
ranges (rejecting overlong forms, surrogates and values above U+10FFFF). -/
def utf8Valid : List Nat → Bool
  | [] => true
  | b :: rest =>
    if b ≤ 127 then utf8Valid rest
    else if 194 ≤ b && b ≤ 223 then
      match rest with
      | b1 :: r => isCont b1 && utf8Valid r
      | [] => false
    else if b == 224 then
      match rest with
      | b1 :: b2 :: r => (160 ≤ b1 && b1 ≤ 191) && isCont b2 && utf8Valid r
      | _ => false
    else if (225 ≤ b && b ≤ 236) || (238 ≤ b && b ≤ 239) then
      match rest with
      | b1 :: b2 :: r => isCont b1 && isCont b2 && utf8Valid r
      | _ => false
    else if b == 237 then
      match rest with
      | b1 :: b2 :: r => (128 ≤ b1 && b1 ≤ 159) && isCont b2 && utf8Valid r
      | _ => false
    else if b == 240 then
      match rest with
      | b1 :: b2 :: b3 :: r =>
          (144 ≤ b1 && b1 ≤ 191) && isCont b2 && isCont b3 && utf8Valid r
      | _ => false
    else if 241 ≤ b && b ≤ 243 then
      match rest with
      | b1 :: b2 :: b3 :: r =>
          isCont b1 && isCont b2 && isCont b3 && utf8Valid r
      | _ => false
    else if b == 244 then
      match rest with
      | b1 :: b2 :: b3 :: r =>
          (128 ≤ b1 && b1 ≤ 143) && isCont b2 && isCont b3 && utf8Valid r
      | _ => false
    else false

/-- The two stdlib subroutines of `DecodeResponseBody` kept abstract:
`tryParseJSON` (Go `encoding/json.Unmarshal`) and `decodeWithEncoding`
(the gzip/deflate fallback chain driven by `content-encoding`). -/
structure Codecs where
  tryParseJSON : List Nat → Option GoValue
  decompress : List Nat → String → List Nat

/-- The distinct result shapes of `DecodeResponseBody`: the empty object for
empty input, a parsed JSON value, a Go byte string, or the tagged
`map[string]string{"base64": ...}` wrapper. -/
inductive Body where
  | emptyObject
  | jsonVal (v : GoValue)
  | strVal (bs : List Nat)
  | base64Val (s : String)

/-- The decompressed payload (`decodeWithEncoding(raw, headers["content-encoding"])`,
lower-cased encoding). -/
def decodedBody (c : Codecs) (raw : List Nat)
    (headers : List (String × String)) : List Nat :=
  c.decompress raw (goToLower ((mapLookup headers "content-encoding").getD ""))

/-- The lower-cased content type (`strings.ToLower(headers["content-type"])`;
an absent Go map key reads as the empty string). -/
def contentTypeOf (headers : List (String × String)) : String :=
  goToLower ((mapLookup headers "content-type").getD "")

/-- Embedding of `DecodeResponseBody` from `core.go`: empty input yields the
empty object; a content type containing `application/json` parses JSON with
a string fallback; `text/`, `xml` or `html` return the string; any other
non-empty content type parses JSON with a base64 fallback; no content type
parses JSON, then falls back to a string when the bytes are valid UTF-8 and
to base64 otherwise. -/
def DecodeResponseBody (c : Codecs) (raw : List Nat)
    (headers : List (String × String)) : Body :=
  if raw.isEmpty then Body.emptyObject
  else if strHas (contentTypeOf headers) "application/json" then
    match c.tryParseJSON (decodedBody c raw headers) with
    | some p => Body.jsonVal p
    | none => Body.strVal (decodedBody c raw headers)
  else if strStarts (contentTypeOf headers) "text/" ||
      strHas (contentTypeOf headers) "xml" ||
      strHas (contentTypeOf headers) "html" then
    Body.strVal (decodedBody c raw headers)
  else if !(contentTypeOf headers == "") then
    match c.tryParseJSON (decodedBody c raw headers) with
    | some p => Body.jsonVal p
    | none => Body.base64Val (base64Std (decodedBody c raw headers))
  else
    match c.tryParseJSON (decodedBody c raw headers) with
    | some p => Body.jsonVal p
    | none =>
      if utf8Valid (decodedBody c raw headers) then
        Body.strVal (decodedBody c raw headers)
      else Body.base64Val (base64Std (decodedBody c raw headers))

/-- C6: the branch behaviour of `DecodeResponseBody` — empty input yields the
empty object; a content type containing `application/json` yields the parsed
JSON value, or the decoded string when parsing fails; a content type starting
with `text/` or containing `xml` or `html` yields the decoded string; any
other non-empty content type yields the parsed JSON value when parsing
succeeds, else the base64-wrapped map; no content type yields the parsed
JSON value when parsing succeeds, else the string when the bytes are valid
UTF-8, else the base64-wrapped map. -/
theorem DecodeResponseBody_branches (c : Codecs) (raw : List Nat)
    (headers : List (String × String)) :
    (raw = [] → DecodeResponseBody c raw headers = Body.emptyObject) ∧
    (raw ≠ [] → strHas (contentTypeOf headers) "application/json" = true →
      (∀ p, c.tryParseJSON (decodedBody c raw headers) = some p →
        DecodeResponseBody c raw headers = Body.jsonVal p) ∧
      (c.tryParseJSON (decodedBody c raw headers) = none →
        DecodeResponseBody c raw headers
          = Body.strVal (decodedBody c raw headers))) ∧
    (raw ≠ [] → strHas (contentTypeOf headers) "application/json" = false →
      (strStarts (contentTypeOf headers) "text/" ||
        strHas (contentTypeOf headers) "xml" ||
        strHas (contentTypeOf headers) "html") = true →
      DecodeResponseBody c raw headers
        = Body.strVal (decodedBody c raw headers)) ∧
    (raw ≠ [] → strHas (contentTypeOf headers) "application/json" = false →
      (strStarts (contentTypeOf headers) "text/" ||
        strHas (contentTypeOf headers) "xml" ||
        strHas (contentTypeOf headers) "html") = false →
      contentTypeOf headers ≠ "" →
      (∀ p, c.tryParseJSON (decodedBody c raw headers) = some p →
        DecodeResponseBody c raw headers = Body.jsonVal p) ∧
      (c.tryParseJSON (decodedBody c raw headers) = none →
        DecodeResponseBody c raw headers
          = Body.base64Val (base64Std (decodedBody c raw headers)))) ∧
    (raw ≠ [] → strHas (contentTypeOf headers) "application/json" = false →
      (strStarts (contentTypeOf headers) "text/" ||
        strHas (contentTypeOf headers) "xml" ||
        strHas (contentTypeOf headers) "html") = false →
      contentTypeOf headers = "" →
      (∀ p, c.tryParseJSON (decodedBody c raw headers) = some p →
        DecodeResponseBody c raw headers = Body.jsonVal p) ∧
      (c.tryParseJSON (decodedBody c raw headers) = none →
        utf8Valid (decodedBody c raw headers) = true →
        DecodeResponseBody c raw headers
          = Body.strVal (decodedBody c raw headers)) ∧
      (c.tryParseJSON (decodedBody c raw headers) = none →
        utf8Valid (decodedBody c raw headers) = false →
        DecodeResponseBody c raw headers
          = Body.base64Val (base64Std (decodedBody c raw headers)))) := by
  refine ⟨?_, ?_, ?_, ?_, ?_⟩
  · intro h
    simp [DecodeResponseBody, h]
  · intro hraw hct
    constructor
    · intro p hp
      simp [DecodeResponseBody, hraw, hct, hp]
    · intro hp
      simp [DecodeResponseBody, hraw, hct, hp]
  · intro hraw hct htext
    simp [DecodeResponseBody, hraw, hct, htext]
  · intro hraw hct htext hne
    constructor
    · intro p hp
      simp [DecodeResponseBody, hraw, hct, htext, hne, hp]
    · intro hp
      simp [DecodeResponseBody, hraw, hct, htext, hne, hp]
  · intro hraw hct htext hemp
    have h1 : strHas "" "application/json" = false := by decide
    have h2 : strStarts "" "text/" = false := by decide
    have h3 : strHas "" "xml" = false := by decide
    have h4 : strHas "" "html" = false := by decide
    refine ⟨?_, ?_, ?_⟩
    · intro p hp
      simp [DecodeResponseBody, hraw, hemp, h1, h2, h3, h4, hp]
    · intro hp hu
      simp [DecodeResponseBody, hraw, hemp, h1, h2, h3, h4, hp, hu]
    · intro hp hu
      simp [DecodeResponseBody, hraw, hemp, h1, h2, h3, h4, hp, hu]

/-- Witness for C6: with a trivial decompressor and a parser that only
accepts the bytes of `[]`, a JSON body under `content-type: application/json`
parses, and a non-UTF-8 body with no content type wraps as base64. -/
theorem DecodeResponseBody_branches_witness :
    DecodeResponseBody
        ⟨fun bs => if bs = [91, 93] then some (GoValue.vArr []) else none,
         fun raw _ => raw⟩
        [91, 93] [("content-type", "application/json")]
      = Body.jsonVal (GoValue.vArr []) ∧
    DecodeResponseBody
        ⟨fun bs => if bs = [91, 93] then some (GoValue.vArr []) else none,
         fun raw _ => raw⟩
        [255] []
      = Body.base64Val "/w==" ∧
    DecodeResponseBody
        ⟨fun bs => if bs = [91, 93] then some (GoValue.vArr []) else none,
         fun raw _ => raw⟩
        [] []
      = Body.emptyObject :=
  ⟨((DecodeResponseBody_branches _ [91, 93]
        [("content-type", "application/json")]).2.1
      (by decide) (by decide)).1 (GoValue.vArr []) (by rfl),
   ((DecodeResponseBody_branches _ [255] []).2.2.2.2
      (by decide) (by decide) (by decide) (by decide)).2.2 (by rfl) (by decide),
   (DecodeResponseBody_branches _ [] []).1 rfl⟩

/-- Everything before the first `#` (fragments are not part of the path). -/
def dropFragment (cs : List Char) : List Char := cs.takeWhile (· != '#')

/-- A character allowed in a URL scheme after its first letter. -/
def isSchemeChar (c : Char) : Bool :=
  c.isAlpha || isDigitChar c || c == '+' || c == '-' || c == '.'

/-- Modelled from Go `net/url`: when the string begins `scheme://` with a
valid scheme (letter first), the part after `://`. -/
def schemeSplit (cs : List Char) : Option (List Char) :=
  match cs.takeWhile isSchemeChar, cs.dropWhile isSchemeChar with
  | c :: _, ':' :: '/' :: '/' :: r => if c.isAlpha then some r else none
  | _, _ => none

/-- Modelled from Go `net/url`: the escaped path of an absolute URL given the
part after `scheme://` — skip the authority (up to the first `/` or `?`),
then take the path up to the query (the escaped path never holds a raw
`?`). -/
def pathOfAbs (cs : List Char) : List Char :=
  match cs.dropWhile (fun c => !(c == '/' || c == '?')) with
  | '/' :: r => '/' :: r.takeWhile (· != '?')
  | _ => []

/-- Model of `preferredPath(u)` for `url.Parse` on the absolute /
protocol-relative branch of `EndpointFromURL`. -/
def parsedPathModel (raw : String) : String :=
  match schemeSplit (dropFragment raw.data) with
  | some rest => String.mk (pathOfAbs rest)
  | none =>
    if listStarts (dropFragment raw.data) "//".data then
      String.mk (pathOfAbs ((dropFragment raw.data).drop 2))
    else String.mk ((dropFragment raw.data).takeWhile (· != '?'))

/-- Model of the relative branch (`url.Parse` on a schemeless string): a
scheme-opaque string has no path, and a parse failure (colon in the first
segment) behaves like an empty path — either way `EndpointFromURL` keeps the
raw string. -/
def relParseModel (raw : String) : String :=
  match (dropFragment raw.data).takeWhile isSchemeChar,
        (dropFragment raw.data).dropWhile isSchemeChar with
  | c :: _, ':' :: r =>
      if c.isAlpha then
        (if listStarts r "/".data then String.mk (r.takeWhile (· != '?'))
         else "")
      else ""
  | [], ':' :: _ => ""
  | _, _ => String.mk ((dropFragment raw.data).takeWhile (· != '?'))

/-- Embedding of `trimQuery` from `urlutil.go`: cut at the first `?`. -/
def trimQuery (s : String) : String :=
  String.mk (s.data.takeWhile (· != '?'))

/-- Embedding of `EndpointFromURL` from `urlutil.go`: absolute or
protocol-relative strings are parsed and their (escaped) path taken;
strings starting `/` are used as-is; anything else is parsed with the raw
string kept when no path comes out; then the query is trimmed and a `/`
prefix forced on a non-empty result. -/
def EndpointFromURL (raw : String) : String :=
  if raw = "" then ""
  else
    let path :=
      if strHas raw "://" || strStarts raw "//" then parsedPathModel raw
      else if strStarts raw "/" then raw
      else if relParseModel raw ≠ "" then relParseModel raw
      else raw
    if trimQuery path = "" then ""
    else if strStarts (trimQuery path) "/" then trimQuery path
    else String.mk ('/' :: (trimQuery path).data)

/-- Helper: the trimmed path never holds a question mark. -/
theorem trimQuery_no_question (s : String) : '?' ∉ (trimQuery s).data := by
  intro hmem
  have := List.mem_takeWhile_imp hmem
  simp at this

/-- C7: `EndpointFromURL` strips the query string (the result never holds a
`?`), a non-empty result always starts with `/` and an empty result is the
empty string; in particular the spec examples evaluate as stated. -/
theorem EndpointFromURL_shape :
    (∀ raw, '?' ∉ (EndpointFromURL raw).data ∧
      (EndpointFromURL raw = "" ∨ strStarts (EndpointFromURL raw) "/" = true)) ∧
    EndpointFromURL "https://api.service.dev/v1/resources?id=7"
      = "/v1/resources" ∧
    EndpointFromURL "/simple" = "/simple" := by
  refine ⟨?_, by decide, by decide⟩
  intro raw
  unfold EndpointFromURL
  by_cases hraw : raw = ""
  · simp [hraw]
  · rw [if_neg hraw]
    generalize (if strHas raw "://" || strStarts raw "//" then parsedPathModel raw
      else if strStarts raw "/" then raw
      else if relParseModel raw ≠ "" then relParseModel raw
      else raw) = path
    by_cases hq : trimQuery path = ""
    · simp [hq]
    · rw [if_neg hq]
      by_cases hs : strStarts (trimQuery path) "/" = true
      · rw [if_pos hs]
        exact ⟨trimQuery_no_question path, Or.inr hs⟩
      · rw [if_neg hs]
        constructor
        · intro hmem
          rcases List.mem_cons.mp hmem with he | hm
          · cases he
          · exact trimQuery_no_question path hm
        · right
          simp [strStarts, listStarts]

/-- Witness for C7: the shape facts instantiated at a concrete relative URL
with a query string. -/
theorem EndpointFromURL_shape_witness :
    '?' ∉ (EndpointFromURL "v1/items?id=7").data ∧
    (EndpointFromURL "v1/items?id=7" = "" ∨
      strStarts (EndpointFromURL "v1/items?id=7") "/" = true) :=
  EndpointFromURL_shape.1 "v1/items?id=7"

end Aiko
